import Mathlib

/-!
Verification of the ffutop/modbus-gateway core against its design document.

Shallow embedding conventions:
* Go `byte` / `uint16` values are `Nat` with explicit `% 256` / `% 65536` (or a
  `< 256` hypothesis) where overflow or the byte type matters.
* Go `[]byte` is `List Nat`.
* A Go function returning `(T, error)` is embedded as `Option T` (`none` = the
  error path) when the error cannot coexist with a mutation, and as
  `Option Unit × State` when the receiver is mutated in place.
* Field and function names follow the Go source where Lean allows it.
-/

namespace ModbusGW

/-- `modbus.ProtocolDataUnit` (function code byte plus data bytes). -/
structure ProtocolDataUnit where
  functionCode : Nat
  data : List Nat
  deriving Repr, DecidableEq

/-- Modelled from the spec: the `crc` package implementation (type `CRC` with
`Reset`, `PushBytes`, `Value`) is not present under src — only its unit test and
its callers are.  Spec 4.1: CRC-16 with polynomial 0xA001, initial value 0xFFFF,
right-shifting, processing a byte stream.  `crcUpdate` folds one byte into the
accumulator: xor the byte into the low bits, then eight shift-xor rounds. -/
def crcUpdate (acc : Nat) (b : Nat) : Nat :=
  (List.range 8).foldl
    (fun c _ => if c % 2 = 1 then (c / 2) ^^^ 0xA001 else c / 2)
    (acc ^^^ b)

/-- Modelled from the spec: `crc.Reset().PushBytes(bs).Value()`. -/
def crc16 (bs : List Nat) : Nat :=
  bs.foldl crcUpdate 0xFFFF

/-- The repository's own test vector for the CRC (part_012 test file):
the bytes {0x02, 0x07} hash to 0x1241. -/
theorem crc16_test_vector : crc16 [0x02, 0x07] = 0x1241 := by decide

theorem crc_shift_round_lt (c : Nat) (h : c < 65536) :
    (if c % 2 = 1 then (c / 2) ^^^ 0xA001 else c / 2) < 65536 := by
  split
  · have h1 : c / 2 < 2 ^ 16 := by omega
    have h2 : (0xA001 : Nat) < 2 ^ 16 := by norm_num
    have := Nat.xor_lt_two_pow h1 h2
    simpa using this
  · omega

theorem foldl_crc_round_lt {α : Type} (l : List α) (c : Nat) (h : c < 65536) :
    l.foldl (fun c _ => if c % 2 = 1 then (c / 2) ^^^ 0xA001 else c / 2) c < 65536 := by
  induction l generalizing c with
  | nil => simpa using h
  | cons x xs ih =>
    simp only [List.foldl_cons]
    exact ih _ (crc_shift_round_lt c h)

theorem crcUpdate_lt (acc b : Nat) (hacc : acc < 65536) (hb : b < 65536) :
    crcUpdate acc b < 65536 := by
  unfold crcUpdate
  apply foldl_crc_round_lt
  have h16 : (65536 : Nat) = 2 ^ 16 := by norm_num
  rw [h16] at hacc hb ⊢
  exact Nat.xor_lt_two_pow hacc hb

theorem foldl_crcUpdate_lt (bs : List Nat) (c : Nat) (hc : c < 65536)
    (hbs : ∀ b ∈ bs, b < 256) : bs.foldl crcUpdate c < 65536 := by
  induction bs generalizing c with
  | nil => simpa using hc
  | cons x xs ih =>
    simp only [List.foldl_cons]
    apply ih
    · exact crcUpdate_lt c x hc (lt_trans (hbs x (by simp)) (by norm_num))
    · intro b hb
      exact hbs b (by simp [hb])

theorem crc16_lt (bs : List Nat) (hbs : ∀ b ∈ bs, b < 256) : crc16 bs < 65536 := by
  unfold crc16
  exact foldl_crcUpdate_lt bs 0xFFFF (by norm_num) hbs

/-! ### RTU framing (src/transport/rtu/server.go: `ApplicationDataUnit`, `Decode`, `Encode`) -/

/-- `rtu.ApplicationDataUnit` (the `crc` field is recomputed, not stored). -/
structure RtuApplicationDataUnit where
  slaveID : Nat
  pdu : ProtocolDataUnit
  deriving Repr, DecidableEq

/-- `rtu.ApplicationDataUnit.Encode`: `[slaveID, functionCode, data..., crcLow, crcHigh]`,
rejecting frames longer than 256 bytes.  `byte(checksum)` is `% 256`. -/
def rtuEncode (adu : RtuApplicationDataUnit) : Option (List Nat) :=
  let length := adu.pdu.data.length + 4
  if length > 256 then none
  else
    let body := adu.slaveID :: adu.pdu.functionCode :: adu.pdu.data
    let checksum := crc16 body
    some (body ++ [checksum % 256, (checksum >>> 8) % 256])

/-- `rtu.Decode`: checks minimum size 4, recomputes the CRC over `raw[0:len-2]` and
compares it with `uint16(raw[len-1])<<8 | uint16(raw[len-2])`. -/
def rtuDecode (raw : List Nat) : Option RtuApplicationDataUnit :=
  let length := raw.length
  if length < 4 then none
  else
    let checksum := (raw.getD (length - 1) 0) <<< 8 ||| raw.getD (length - 2) 0
    if checksum ≠ crc16 (raw.take (length - 2)) then none
    else
      some { slaveID := raw.getD 0 0
             pdu := { functionCode := raw.getD 1 0
                      data := (raw.drop 2).take (length - 4) } }

theorem getD_append_pair (l : List Nat) (x y : Nat) :
    (l ++ [x, y]).getD l.length 0 = x ∧ (l ++ [x, y]).getD (l.length + 1) 0 = y := by
  induction l with
  | nil => simp [List.getD]
  | cons a t ih => simpa [List.getD] using ih

theorem reassemble_u16 (c : Nat) (hc : c < 65536) :
    (((c >>> 8) % 256) <<< 8) ||| (c % 256) = c := by
  have hdiv : c >>> 8 = c / 256 := by
    rw [Nat.shiftRight_eq_div_pow]
  have hlt : c / 256 < 256 := by omega
  rw [hdiv, Nat.mod_eq_of_lt hlt, Nat.shiftLeft_eq]
  have h256 : (2 : Nat) ^ 8 = 256 := by norm_num
  have hb : c % 256 < 2 ^ 8 := by omega
  rw [show c / 256 * 2 ^ 8 = 2 ^ 8 * (c / 256) from Nat.mul_comm _ _]
  rw [← Nat.mul_add_lt_is_or hb (c / 256)]
  omega

/-- Claim C4: For every RTU ADU with 0–252 data bytes (all fields byte-valued),
decoding the encoder's output returns the identical slave-id, function-code and
data; and the decoder rejects every frame (of the minimum length 4) whose last
two bytes, low byte at `len-2` and high byte at `len-1`, differ from the CRC-16
of the preceding bytes. -/
theorem rtu_codec_roundtrip_and_crc_reject :
    (∀ adu : RtuApplicationDataUnit, adu.pdu.data.length ≤ 252 →
      adu.slaveID < 256 → adu.pdu.functionCode < 256 →
      (∀ b ∈ adu.pdu.data, b < 256) →
      ∃ raw, rtuEncode adu = some raw ∧ rtuDecode raw = some adu) ∧
    (∀ raw : List Nat, 4 ≤ raw.length →
      ((raw.getD (raw.length - 1) 0) <<< 8 ||| raw.getD (raw.length - 2) 0) ≠
        crc16 (raw.take (raw.length - 2)) →
      rtuDecode raw = none) := by
  constructor
  · intro adu hlen hsid hfc hbytes
    obtain ⟨s, ⟨f, d⟩⟩ := adu
    simp only at hlen hsid hfc hbytes
    have hclt : crc16 (s :: f :: d) < 65536 := by
      apply crc16_lt
      intro b hb
      rcases List.mem_cons.mp hb with rfl | hb
      · exact hsid
      rcases List.mem_cons.mp hb with rfl | hb
      · exact hfc
      · exact hbytes b hb
    set c : Nat := crc16 (s :: f :: d) with hcdef
    refine ⟨(s :: f :: d) ++ [c % 256, (c >>> 8) % 256], ?_, ?_⟩
    · unfold rtuEncode
      simp only [List.length_cons]
      rw [if_neg (by omega)]
    · unfold rtuDecode
      have hraw : ((s :: f :: d) ++ [c % 256, (c >>> 8) % 256]).length = d.length + 4 := by
        simp
      simp only [hraw]
      rw [if_neg (by omega)]
      have e1 : d.length + 4 - 1 = d.length + 2 + 1 := by omega
      have e2 : d.length + 4 - 2 = d.length + 2 := by omega
      have e4 : d.length + 4 - 4 = d.length := by omega
      rw [e1, e2, e4]
      have hget1 : ((s :: f :: d) ++ [c % 256, (c >>> 8) % 256]).getD (d.length + 2) 0
          = c % 256 := by
        simpa only [List.length_cons] using (getD_append_pair (s :: f :: d) (c % 256) ((c >>> 8) % 256)).1
      have hget2 : ((s :: f :: d) ++ [c % 256, (c >>> 8) % 256]).getD (d.length + 2 + 1) 0
          = (c >>> 8) % 256 := by
        simpa only [List.length_cons] using (getD_append_pair (s :: f :: d) (c % 256) ((c >>> 8) % 256)).2
      have htake : ((s :: f :: d) ++ [c % 256, (c >>> 8) % 256]).take (d.length + 2)
          = s :: f :: d := by
        simpa using List.take_left (s :: f :: d) [c % 256, (c >>> 8) % 256]
      rw [hget1, hget2, htake, reassemble_u16 c hclt, if_neg (by simp [hcdef])]
      have htake2 : (d ++ [c % 256, (c >>> 8) % 256]).take d.length = d := by
        simpa using List.take_left d [c % 256, (c >>> 8) % 256]
      simp [htake2]
  · intro raw hlen hne
    unfold rtuDecode
    rw [if_neg (by omega), if_pos hne]

/-- Witness for C4: a concrete read-holding-registers request round-trips, and a
concrete frame with a bad CRC is rejected. -/
theorem rtu_codec_roundtrip_and_crc_reject_witness :
    (∃ raw, rtuEncode ⟨1, ⟨3, [0, 0, 0, 1]⟩⟩ = some raw ∧
      rtuDecode raw = some ⟨1, ⟨3, [0, 0, 0, 1]⟩⟩) ∧
    rtuDecode [1, 3, 0, 0] = none :=
  ⟨rtu_codec_roundtrip_and_crc_reject.1 ⟨1, ⟨3, [0, 0, 0, 1]⟩⟩
      (by decide) (by decide) (by decide) (by decide),
    rtu_codec_roundtrip_and_crc_reject.2 [1, 3, 0, 0] (by decide) (by decide)⟩

/-! ### TCP framing (src/transport/tcp/server.go second file: `Decode`, `Encode`)
and the ADUs built by the TCP client (src/transport/tcp/client.go) and by the
TCP server's per-connection loop. -/

/-- `tcp.ApplicationDataUnit`. -/
structure TcpApplicationDataUnit where
  transactionID : Nat
  protocolID : Nat
  length : Nat
  slaveID : Nat
  pdu : ProtocolDataUnit
  deriving Repr, DecidableEq

/-- `tcp.Decode`: minimum size 8, big-endian u16 header fields, the PDU data is
everything after byte 7. -/
def tcpDecode (raw : List Nat) : Option TcpApplicationDataUnit :=
  if raw.length < 8 then none
  else some
    { transactionID := (raw.getD 0 0) <<< 8 ||| raw.getD 1 0
      protocolID := (raw.getD 2 0) <<< 8 ||| raw.getD 3 0
      length := (raw.getD 4 0) <<< 8 ||| raw.getD 5 0
      slaveID := raw.getD 6 0
      pdu := { functionCode := raw.getD 7 0, data := raw.drop 8 } }

/-- `tcp.ApplicationDataUnit.Encode`: requires `len(data) + 8 ≤ 260`; serializes
the header fields big-endian (`byte(x >> 8)` is `(x >>> 8) % 256`). -/
def tcpEncode (adu : TcpApplicationDataUnit) : Option (List Nat) :=
  if adu.pdu.data.length + 8 > 260 then none
  else some
    ([(adu.transactionID >>> 8) % 256, adu.transactionID % 256,
      (adu.protocolID >>> 8) % 256, adu.protocolID % 256,
      (adu.length >>> 8) % 256, adu.length % 256,
      adu.slaveID, adu.pdu.functionCode] ++ adu.pdu.data)

/-- The request ADU built by `tcp.Client.Send` (src/transport/tcp/client.go):
`Length: uint16(1 + len(pdu.Data))` — the function-code byte is not counted. -/
def clientRequestAdu (tid slaveID : Nat) (pdu : ProtocolDataUnit) :
    TcpApplicationDataUnit :=
  { transactionID := tid % 65536
    protocolID := 0
    length := (1 + pdu.data.length) % 65536
    slaveID := slaveID
    pdu := pdu }

/-- The response ADU built by `tcp.Server.handleConnection`
(src/transport/tcp/server.go): `Length: uint16(1 + 1 + len(respPdu.Data))`. -/
def serverResponseAdu (req : TcpApplicationDataUnit) (respPdu : ProtocolDataUnit) :
    TcpApplicationDataUnit :=
  { transactionID := req.transactionID
    protocolID := req.protocolID
    length := (1 + 1 + respPdu.data.length) % 65536
    slaveID := req.slaveID
    pdu := respPdu }

/-- Shared lemma: decoding an encoded TCP ADU restores the ADU exactly, for
u16-valued header fields and data up to 252 bytes (no constraint on the data
bytes or the byte fields is needed: `Decode` copies them verbatim). -/
theorem tcp_decode_encode_id (adu : TcpApplicationDataUnit)
    (htid : adu.transactionID < 65536) (hpid : adu.protocolID < 65536)
    (hlen : adu.length < 65536) (hdata : adu.pdu.data.length ≤ 252) :
    ∃ raw, tcpEncode adu = some raw ∧ tcpDecode raw = some adu := by
  obtain ⟨tid, pid, len, sid, ⟨f, d⟩⟩ := adu
  simp only at htid hpid hlen hdata
  refine ⟨[(tid >>> 8) % 256, tid % 256, (pid >>> 8) % 256, pid % 256,
    (len >>> 8) % 256, len % 256, sid, f] ++ d, ?_, ?_⟩
  · unfold tcpEncode
    simp only
    rw [if_neg (by simp; omega)]
  · unfold tcpDecode
    rw [if_neg (by simp)]
    simp [List.getD, reassemble_u16 tid htid, reassemble_u16 pid hpid,
      reassemble_u16 len hlen]

/-- Claim C3: The decode-after-encode identity holds (see `tcp_decode_encode_id`),
and the server-built response satisfies `length = 1 + |pdu|`; but the request
ADU built by `tcp.Client.Send` sets the MBAP length field to `1 + len(pdu.Data)`,
omitting the function-code byte.  Evaluated at the failing input (a
read-holding-registers request, fc 0x03, data `[0,1,0,1]`): the emitted frame
carries six bytes after the MBAP length field (unit-id, function-code, four data
bytes) but its length field reads 5, not 1 + |pdu| = 6. -/
theorem tcp_client_length_field_bug :
    (∃ raw, tcpEncode (clientRequestAdu 1 1 ⟨0x03, [0x00, 0x01, 0x00, 0x01]⟩) = some raw ∧
      tcpDecode raw = some (clientRequestAdu 1 1 ⟨0x03, [0x00, 0x01, 0x00, 0x01]⟩) ∧
      ((raw.getD 4 0) <<< 8 ||| raw.getD 5 0) = 5 ∧ raw.length - 6 = 6) ∧
    (clientRequestAdu 1 1 ⟨0x03, [0x00, 0x01, 0x00, 0x01]⟩).length = 5 ∧
    1 + (1 + ([0x00, 0x01, 0x00, 0x01] : List Nat).length) = 6 ∧
    (serverResponseAdu ⟨1, 0, 6, 1, ⟨3, [0, 1, 0, 1]⟩⟩ ⟨3, [2, 0xAA, 0xBB]⟩).length
      = 1 + (1 + 3) := by
  refine ⟨?_, by decide, by decide, by decide⟩
  obtain ⟨raw, h1, h2⟩ := tcp_decode_encode_id (clientRequestAdu 1 1 ⟨3, [0, 1, 0, 1]⟩)
    (by decide) (by decide) (by decide) (by decide)
  refine ⟨raw, h1, h2, ?_, ?_⟩ <;>
  · rw [show raw = [0, 1, 0, 0, 0, 5, 1, 3] ++ [0, 1, 0, 1] by
      have := h1
      rw [show tcpEncode (clientRequestAdu 1 1 ⟨3, [0, 1, 0, 1]⟩)
          = some ([0, 1, 0, 0, 0, 5, 1, 3] ++ [0, 1, 0, 1]) from by decide] at this
      exact (Option.some_inj.mp this).symm]
    decide

/-! ### Gateway dispatch (src/unnamed/part_003: `Gateway.handleRequest`) and the
TCP server's reaction to a handler error (src/transport/tcp/server.go). -/

/-- Result of a Go call returning `(modbus.ProtocolDataUnit, error)`: either a
PDU with a nil error, or a non-nil Go error (`deadlineExceeded` records whether
the error is `context.DeadlineExceeded`, the only distinction the code makes). -/
inductive PduResult
  | ok (pdu : ProtocolDataUnit)
  | goError (deadlineExceeded : Bool)
  deriving Repr, DecidableEq

/-- `Gateway.handleRequest`: look the slave-id up in `Routes`, fall back to
`DefaultRoute`; with neither, return a Go error ("gateway path unavailable") —
no PDU is synthesized.  Otherwise the exchange is delegated to the target
downstream (abstracted as `send`); its result (PDU or error) is returned as-is. -/
def handleRequest {α : Type} (routes : List (Nat × α)) (defaultRoute : Option α)
    (send : α → Nat → ProtocolDataUnit → PduResult)
    (slaveID : Nat) (pdu : ProtocolDataUnit) : PduResult :=
  match routes.lookup slaveID with
  | some target => send target slaveID pdu
  | none =>
    match defaultRoute with
    | some target => send target slaveID pdu
    | none => .goError false

/-- One request/response step of `tcp.Server.handleConnection` after a request
was decoded: a handler error writes nothing (the loop logs and continues); a
handler PDU is wrapped by `serverResponseAdu` and the encoded bytes are written
(an encode failure also writes nothing). -/
def tcpServerWriteFor (adu : TcpApplicationDataUnit) (handlerResult : PduResult) :
    Option (List Nat) :=
  match handlerResult with
  | .goError _ => none
  | .ok respPdu => tcpEncode (serverResponseAdu adu respPdu)

/-- Counterexample to C1: routes only for unit-id 1, no default route, request
from unit-id 2 (fc 0x03).  The dispatch returns a Go error — not the exception
PDU `fc|0x80, [0x0A]` the claim describes — and the TCP server consequently
writes no reply at all. -/
theorem gateway_no_route_counterexample :
    handleRequest [(1, 0)] none (fun _ _ _ => PduResult.ok ⟨0x03, [2, 0, 0]⟩) 2
        ⟨0x03, [0, 0, 0, 1]⟩ = PduResult.goError false ∧
    handleRequest [(1, 0)] none (fun _ _ _ => PduResult.ok ⟨0x03, [2, 0, 0]⟩) 2
        ⟨0x03, [0, 0, 0, 1]⟩ ≠ PduResult.ok ⟨0x03 ||| 0x80, [0x0A]⟩ ∧
    tcpServerWriteFor ⟨7, 0, 6, 2, ⟨0x03, [0, 0, 0, 1]⟩⟩
      (handleRequest [(1, 0)] none (fun _ _ _ => PduResult.ok ⟨0x03, [2, 0, 0]⟩) 2
        ⟨0x03, [0, 0, 0, 1]⟩) = none := by
  decide

/-- Claim C1 as amended: whenever the routing table has no entry for the unit-id and
no default route is configured, `Gateway.handleRequest` returns a (non-deadline)
Go error and no response PDU, and the TCP server writes no reply bytes for that
request (it drops the request and keeps the connection). -/
theorem gateway_no_route_returns_error {α : Type} (routes : List (Nat × α))
    (send : α → Nat → ProtocolDataUnit → PduResult) (slaveID : Nat)
    (pdu : ProtocolDataUnit) (adu : TcpApplicationDataUnit)
    (hmiss : routes.lookup slaveID = none) :
    handleRequest routes none send slaveID pdu = PduResult.goError false ∧
    tcpServerWriteFor adu (handleRequest routes none send slaveID pdu) = none := by
  unfold handleRequest
  rw [hmiss]
  exact ⟨rfl, rfl⟩

/-- Witness for the amended C1 at the concrete scenario of the spec (routes
cover only unit-id 1, request for unit-id 2). -/
theorem gateway_no_route_returns_error_witness :
    handleRequest [(1, 0)] none (fun _ _ _ => PduResult.ok ⟨0, []⟩) 2 ⟨3, [0, 0, 0, 1]⟩
        = PduResult.goError false ∧
    tcpServerWriteFor ⟨7, 0, 6, 2, ⟨3, [0, 0, 0, 1]⟩⟩
      (handleRequest [(1, 0)] none (fun _ _ _ => PduResult.ok ⟨0, []⟩) 2 ⟨3, [0, 0, 0, 1]⟩)
        = none :=
  gateway_no_route_returns_error [(1, 0)] (fun _ _ _ => PduResult.ok ⟨0, []⟩) 2
    ⟨3, [0, 0, 0, 1]⟩ ⟨7, 0, 6, 2, ⟨3, [0, 0, 0, 1]⟩⟩ (by decide)

/-! ### RTU request framer (src/modbus/rtu/framer.go: `CalculateRequestLength`)
and the RTU-over-TCP server loop (src/transport/rtu-over-tcp/server.go). -/

/-- `rtu.CalculateRequestLength`: total request-frame length from the function
code; 0x0F/0x10 need the byte-count at header index 6. -/
def CalculateRequestLength (funcCode : Nat) (header : List Nat) : Option Nat :=
  if funcCode = 0x01 ∨ funcCode = 0x02 ∨ funcCode = 0x03 ∨ funcCode = 0x04 ∨
      funcCode = 0x05 ∨ funcCode = 0x06 then
    some 8
  else if funcCode = 0x0F ∨ funcCode = 0x10 then
    if header.length < 7 then none
    else some (7 + header.getD 6 0 + 2)
  else none

/-- Claim C6: The frame-length computation depends on the function code alone:
codes 0x01–0x06 give a fixed total of 8; codes 0x0F and 0x10 read the byte-count
at header index 6 and give `7 + byteCount + 2` (error when fewer than 7 header
bytes are available); every other code is an error, which makes the callers
abandon the frame. -/
theorem calculate_request_length_cases (funcCode : Nat) (header : List Nat) :
    (funcCode = 0x01 ∨ funcCode = 0x02 ∨ funcCode = 0x03 ∨ funcCode = 0x04 ∨
      funcCode = 0x05 ∨ funcCode = 0x06 →
      CalculateRequestLength funcCode header = some 8) ∧
    ((funcCode = 0x0F ∨ funcCode = 0x10) → header.length < 7 →
      CalculateRequestLength funcCode header = none) ∧
    ((funcCode = 0x0F ∨ funcCode = 0x10) → 7 ≤ header.length →
      CalculateRequestLength funcCode header = some (7 + header.getD 6 0 + 2)) ∧
    (funcCode ∉ ([0x01, 0x02, 0x03, 0x04, 0x05, 0x06, 0x0F, 0x10] : List Nat) →
      CalculateRequestLength funcCode header = none) := by
  refine ⟨?_, ?_, ?_, ?_⟩
  · intro h
    unfold CalculateRequestLength
    rw [if_pos h]
  · intro h hshort
    unfold CalculateRequestLength
    rw [if_neg (by omega), if_pos h, if_pos hshort]
  · intro h hlong
    unfold CalculateRequestLength
    rw [if_neg (by omega), if_pos h, if_neg (by omega)]
  · intro h
    simp only [List.mem_cons, List.not_mem_nil, or_false, not_or] at h
    unfold CalculateRequestLength
    rw [if_neg (by tauto), if_neg (by tauto)]

/-- Witness for C6: the repository's own framer-test inputs (part_011):
a 0x10 request with byte-count 2 has total length 11, a short 0x10 header is an
error, 0x03 is fixed at 8, and 0x99 is rejected. -/
theorem calculate_request_length_cases_witness :
    CalculateRequestLength 0x10 [0x01, 0x10, 0x00, 0x01, 0x00, 0x01, 0x02] = some 11 ∧
    CalculateRequestLength 0x10 [0x01, 0x10, 0x00, 0x01, 0x00, 0x01] = none ∧
    CalculateRequestLength 0x03 [0x01, 0x03, 0x00, 0x00, 0x00, 0x01] = some 8 ∧
    CalculateRequestLength 0x99 [0x01, 0x99] = none := by
  refine ⟨?_, ?_, ?_, ?_⟩
  · have := (calculate_request_length_cases 0x10
      [0x01, 0x10, 0x00, 0x01, 0x00, 0x01, 0x02]).2.2.1 (Or.inr rfl) (by decide)
    simpa using this
  · exact (calculate_request_length_cases 0x10
      [0x01, 0x10, 0x00, 0x01, 0x00, 0x01]).2.1 (Or.inr rfl) (by decide)
  · exact (calculate_request_length_cases 0x03
      [0x01, 0x03, 0x00, 0x00, 0x00, 0x01]).1 (by tauto)
  · exact (calculate_request_length_cases 0x99 [0x01, 0x99]).2.2.2 (by decide)

/-- `rtuovertcp.Server.handleConnection`, modelled over the connection's byte
stream given as a list (the end of the list models EOF, after which every read
errors and the handler function returns): the result is the list of reply
frames written on the connection, in order.  Returning without recursing models
closing the connection.  Per iteration: read 1 + 6 header bytes (EOF → close),
compute the expected length from the function code at byte 1 (error → close),
read the rest of the frame (EOF → close), decode (CRC or size failure → skip
the frame and continue), call the handler (a Go error becomes an exception PDU
with code 0x04, or 0x0B for `context.DeadlineExceeded`), encode and write the
reply (encode failure → continue).  `fuel` bounds the iteration count; each
iteration consumes at least 8 bytes, so `input.length` is always enough. -/
def rotHandleConnection (handler : Nat → ProtocolDataUnit → PduResult)
    (input : List Nat) : Nat → List (List Nat)
  | 0 => []
  | fuel + 1 =>
    if input.length = 0 then []
    else if input.length < 7 then []
    else
      match CalculateRequestLength (input.getD 1 0) (input.take 7) with
      | none => []
      | some expectedLen =>
        if input.length < expectedLen then []
        else
          match rtuDecode (input.take expectedLen) with
          | none => rotHandleConnection handler (input.drop expectedLen) fuel
          | some adu =>
            let respPdu :=
              match handler adu.slaveID adu.pdu with
              | .ok p => p
              | .goError deadlineExceeded =>
                { functionCode := adu.pdu.functionCode ||| 0x80
                  data := [if deadlineExceeded then 0x0B else 0x04] }
            match rtuEncode { slaveID := adu.slaveID, pdu := respPdu } with
            | none => rotHandleConnection handler (input.drop expectedLen) fuel
            | some raw => raw :: rotHandleConnection handler (input.drop expectedLen) fuel

/-- `rotHandleConnection` with the always-sufficient fuel `input.length`. -/
def rotServe (handler : Nat → ProtocolDataUnit → PduResult) (input : List Nat) :
    List (List Nat) :=
  rotHandleConnection handler input input.length

/-- Counterexample to C2: the stream carries a fc-0x03 request ADU with the last
CRC byte flipped (`0x0B` instead of the correct `0x0A`), followed by the same
frame with a correct CRC.  The flipped frame fails CRC verification in the
decoder, yet the server keeps the connection and serves the second frame, so
reply bytes are written on the connection after the CRC failure — the claim
says no reply bytes are written and the connection is closed. -/
theorem rot_crc_continue_counterexample :
    rtuDecode [1, 3, 0, 0, 0, 1, 0x84, 0x0B] = none ∧
    rotServe (fun _ pdu => PduResult.ok ⟨pdu.functionCode, [2, 0x30, 0x39]⟩)
        ([1, 3, 0, 0, 0, 1, 0x84, 0x0B] ++ [1, 3, 0, 0, 0, 1, 0x84, 0x0A]) ≠ [] := by
  set_option maxRecDepth 8192 in decide

/-- Claim C2 as amended: when a fully assembled request frame fails CRC verification,
the RTU-over-TCP server writes no reply bytes for that frame but keeps the
connection open and continues scanning the remaining stream; the connection is
closed instead when the frame-length calculation fails (unknown function code
or short header). -/
theorem rot_crc_skip_header_close (handler : Nat → ProtocolDataUnit → PduResult)
    (input : List Nat) (fuel n : Nat) :
    (7 ≤ input.length →
      CalculateRequestLength (input.getD 1 0) (input.take 7) = some n →
      n ≤ input.length →
      rtuDecode (input.take n) = none →
      rotHandleConnection handler input (fuel + 1) =
        rotHandleConnection handler (input.drop n) fuel) ∧
    (CalculateRequestLength (input.getD 1 0) (input.take 7) = none →
      rotHandleConnection handler input (fuel + 1) = []) := by
  constructor
  · intro hlen hcalc hfit hbad
    conv_lhs => rw [rotHandleConnection]
    rw [if_neg (by omega), if_neg (by omega), hcalc]
    simp only
    rw [if_neg (by omega), hbad]
  · intro hcalc
    unfold rotHandleConnection
    by_cases h0 : input.length = 0
    · rw [if_pos h0]
    · rw [if_neg h0]
      by_cases h7 : input.length < 7
      · rw [if_pos h7]
      · rw [if_neg h7, hcalc]

set_option maxRecDepth 8192 in
/-- Witness for the amended C2: on the single flipped-CRC frame the server
skips the frame and recurses on the (empty) rest; on a frame with unknown
function code 0x99 it closes at once. -/
theorem rot_crc_skip_header_close_witness :
    rotHandleConnection (fun _ pdu => PduResult.ok pdu)
        [1, 3, 0, 0, 0, 1, 0x84, 0x0B] 2 =
      rotHandleConnection (fun _ pdu => PduResult.ok pdu) [] 1 ∧
    rotHandleConnection (fun _ pdu => PduResult.ok pdu)
        [1, 0x99, 0, 0, 0, 1, 0x84, 0x0A] 2 = [] := by
  constructor
  · have h := (rot_crc_skip_header_close (fun _ pdu => PduResult.ok pdu)
      [1, 3, 0, 0, 0, 1, 0x84, 0x0B] 1 8).1 (by decide) (by decide) (by decide)
      (by decide)
    simpa using h
  · exact (rot_crc_skip_header_close (fun _ pdu => PduResult.ok pdu)
      [1, 0x99, 0, 0, 0, 1, 0x84, 0x0A] 1 0).2 (by decide)

/-! ### DataModel (src/internal/config/config.go second file, package `model`).
The four tables are total functions on addresses: the Go slices have exactly
65536 slots and every access is bounds-checked (`validateRange`, or the
explicit `address > MaxAddress` check) before any indexing.  Go methods that
mutate the receiver and return an `error` are embedded as
`DataModel → args → Bool × DataModel` where the `Bool` is `true` iff a non-nil
error is returned. -/

def MaxAddress : Nat := 65535

/-- `model.DataModel`. -/
structure DataModel where
  Coils : Nat → Nat
  DiscreteInputs : Nat → Nat
  HoldingRegisters : Nat → Nat
  InputRegisters : Nat → Nat

/-- `model.validateRange`: `true` iff the range is valid (Go returns a nil
error): quantity nonzero and `address + quantity ≤ MaxAddress + 1`. -/
def validateRange (address quantity : Nat) : Bool :=
  if quantity = 0 then false
  else if address + quantity > MaxAddress + 1 then false
  else true

/-- `DataModel.ReadCoils`: result byte `i/8` accumulates bit `i%8` for each set
coil, over a zeroed buffer of `(quantity+7)/8` bytes. -/
def ReadCoils (m : DataModel) (address quantity : Nat) : Option (List Nat) :=
  if validateRange address quantity = false then none
  else some ((List.range quantity).foldl
    (fun result i =>
      if m.Coils (address + i) ≠ 0 then
        result.set (i / 8) (result.getD (i / 8) 0 ||| 1 <<< (i % 8))
      else result)
    (List.replicate ((quantity + 7) / 8) 0))

/-- `DataModel.ReadDiscreteInputs` (same packing as coils). -/
def ReadDiscreteInputs (m : DataModel) (address quantity : Nat) : Option (List Nat) :=
  if validateRange address quantity = false then none
  else some ((List.range quantity).foldl
    (fun result i =>
      if m.DiscreteInputs (address + i) ≠ 0 then
        result.set (i / 8) (result.getD (i / 8) 0 ||| 1 <<< (i % 8))
      else result)
    (List.replicate ((quantity + 7) / 8) 0))

/-- `DataModel.ReadHoldingRegisters`: `quantity*2` big-endian bytes
(`binary.BigEndian.PutUint16` stores `byte(v>>8)` then `byte(v)`). -/
def ReadHoldingRegisters (m : DataModel) (address quantity : Nat) : Option (List Nat) :=
  if validateRange address quantity = false then none
  else some ((List.range quantity).foldl
    (fun result i =>
      (result.set (i * 2) ((m.HoldingRegisters (address + i) >>> 8) % 256)).set
        (i * 2 + 1) (m.HoldingRegisters (address + i) % 256))
    (List.replicate (quantity * 2) 0))

/-- `DataModel.ReadInputRegisters`. -/
def ReadInputRegisters (m : DataModel) (address quantity : Nat) : Option (List Nat) :=
  if validateRange address quantity = false then none
  else some ((List.range quantity).foldl
    (fun result i =>
      (result.set (i * 2) ((m.InputRegisters (address + i) >>> 8) % 256)).set
        (i * 2 + 1) (m.InputRegisters (address + i) % 256))
    (List.replicate (quantity * 2) 0))

/-- `DataModel.WriteSingleCoil`: 0xFF00 sets the coil to 1, 0x0000 to 0, any
other value is silently ignored; only an out-of-range address errors. -/
def WriteSingleCoil (m : DataModel) (address value : Nat) : Bool × DataModel :=
  if address > MaxAddress then (true, m)
  else if value = 0xFF00 then (false, { m with Coils := Function.update m.Coils address 1 })
  else if value = 0x0000 then (false, { m with Coils := Function.update m.Coils address 0 })
  else (false, m)

/-- `DataModel.WriteSingleRegister`. -/
def WriteSingleRegister (m : DataModel) (address value : Nat) : Bool × DataModel :=
  if address > MaxAddress then (true, m)
  else (false, { m with HoldingRegisters := Function.update m.HoldingRegisters address value })

/-- `DataModel.WriteMultipleCoils`: after `validateRange` and the
`len(data) < (quantity+7)/8` check, coil `address+i` receives bit `i%8` of
`data[i/8]`. -/
def WriteMultipleCoils (m : DataModel) (address quantity : Nat) (data : List Nat) :
    Bool × DataModel :=
  if validateRange address quantity = false then (true, m)
  else if data.length < (quantity + 7) / 8 then (true, m)
  else
    let coils := (List.range quantity).foldl
      (fun c i => Function.update c (address + i) ((data.getD (i / 8) 0 >>> (i % 8)) &&& 1))
      m.Coils
    (false, { m with Coils := coils })

/-- `DataModel.WriteMultipleRegisters`: after `validateRange` and the
`len(data) < quantity*2` check, register `address+i` receives
`binary.BigEndian.Uint16(data[i*2:])`. -/
def WriteMultipleRegisters (m : DataModel) (address quantity : Nat) (data : List Nat) :
    Bool × DataModel :=
  if validateRange address quantity = false then (true, m)
  else if data.length < quantity * 2 then (true, m)
  else
    let regs := (List.range quantity).foldl
      (fun h i => Function.update h (address + i)
        ((data.getD (i * 2) 0) <<< 8 ||| data.getD (i * 2 + 1) 0))
      m.HoldingRegisters
    (false, { m with HoldingRegisters := regs })

/-- Claim C10: Every DataModel write is atomic: whenever it reports an error
(quantity zero, `address+quantity > 65536`, out-of-range address or short data),
the returned model is the unmodified input — all validation precedes the first
mutation. -/
theorem write_ops_atomic (m : DataModel) (address value quantity : Nat)
    (data : List Nat) :
    ((WriteSingleCoil m address value).1 = true → (WriteSingleCoil m address value).2 = m) ∧
    ((WriteSingleRegister m address value).1 = true →
      (WriteSingleRegister m address value).2 = m) ∧
    ((WriteMultipleCoils m address quantity data).1 = true →
      (WriteMultipleCoils m address quantity data).2 = m) ∧
    ((WriteMultipleRegisters m address quantity data).1 = true →
      (WriteMultipleRegisters m address quantity data).2 = m) := by
  refine ⟨?_, ?_, ?_, ?_⟩ <;>
  · simp only [WriteSingleCoil, WriteSingleRegister, WriteMultipleCoils,
      WriteMultipleRegisters]
    split_ifs <;> simp_all

/-- A zeroed data model (as `persistence.MemoryStorage.Load` produces). -/
def zeroModel : DataModel :=
  { Coils := fun _ => 0
    DiscreteInputs := fun _ => 0
    HoldingRegisters := fun _ => 0
    InputRegisters := fun _ => 0 }

/-- Witness for C10: each of the four writes at a concrete erroring input
(address 70000 out of range; quantity 0) returns the model unchanged. -/
theorem write_ops_atomic_witness :
    (WriteSingleCoil zeroModel 70000 0xFF00).1 = true ∧
    (WriteSingleCoil zeroModel 70000 0xFF00).2 = zeroModel ∧
    (WriteSingleRegister zeroModel 70000 1).1 = true ∧
    (WriteSingleRegister zeroModel 70000 1).2 = zeroModel ∧
    (WriteMultipleCoils zeroModel 0 0 []).1 = true ∧
    (WriteMultipleCoils zeroModel 0 0 []).2 = zeroModel ∧
    (WriteMultipleRegisters zeroModel 0 0 []).1 = true ∧
    (WriteMultipleRegisters zeroModel 0 0 []).2 = zeroModel := by
  have h := write_ops_atomic zeroModel 70000 0xFF00 0 []
  have h2 := write_ops_atomic zeroModel 70000 1 0 []
  refine ⟨rfl, h.1 rfl, rfl, h2.2.1 rfl, rfl, h.2.2.1 rfl, rfl, h.2.2.2 rfl⟩

/-! ### Pointwise characterizations of the coil write and read loops (for C5). -/

theorem getD_set_zero (l : List Nat) (i j v : Nat) :
    (l.set i v).getD j 0 = if i = j ∧ j < l.length then v else l.getD j 0 := by
  by_cases hij : i = j
  · subst hij
    by_cases hl : i < l.length
    · simp [List.getD_eq_getElem?_getD, List.getElem?_set_self hl, hl]
    · rw [List.set_eq_of_length_le (Nat.le_of_not_lt hl), if_neg (fun h => hl h.2)]
  · simp [List.getD_eq_getElem?_getD, List.getElem?_set_ne hij, hij]

theorem foldl_preserve_length (f : List Nat → Nat → List Nat)
    (hf : ∀ l i, (f l i).length = l.length) (idx : List Nat) (l : List Nat) :
    (idx.foldl f l).length = l.length := by
  induction idx generalizing l with
  | nil => rfl
  | cons x xs ih => rw [List.foldl_cons, ih, hf]

/-- The coil range written by `WriteMultipleCoils`' loop, pointwise: address
`a` inside `[address, address+quantity)` holds bit `(a-address)%8` of byte
`(a-address)/8` of the payload; every other address is untouched. -/
theorem coils_write_fold_apply (coils : Nat → Nat) (address quantity : Nat)
    (data : List Nat) (a : Nat) :
    ((List.range quantity).foldl
      (fun c i => Function.update c (address + i) ((data.getD (i / 8) 0 >>> (i % 8)) &&& 1))
      coils) a =
    if address ≤ a ∧ a < address + quantity then
      (data.getD ((a - address) / 8) 0 >>> ((a - address) % 8)) &&& 1
    else coils a := by
  induction quantity with
  | zero =>
    rw [if_neg (by omega)]
    rfl
  | succ q ih =>
    rw [List.range_succ, List.foldl_append, List.foldl_cons, List.foldl_nil]
    by_cases ha : a = address + q
    · subst ha
      rw [Function.update_same, if_pos ⟨by omega, by omega⟩]
      simp [Nat.add_sub_cancel_left]
    · rw [Function.update_noteq ha, ih]
      by_cases h2 : address ≤ a ∧ a < address + q
      · rw [if_pos h2, if_pos ⟨h2.1, by omega⟩]
      · rw [if_neg h2, if_neg (by omega)]

/-- Value of byte `j` accumulated by the `ReadCoils` loop: one term per bit
position `r` of the byte, set when coil `8j+r` (relative) is within range and
on. -/
def readByte (bit : Nat → Prop) [DecidablePred bit] (quantity j : Nat) : Nat :=
  (Finset.range 8).sum (fun r => if 8 * j + r < quantity ∧ bit (8 * j + r) then 2 ^ r else 0)

theorem sum_range_two_pow (k : Nat) :
    (Finset.range k).sum (fun r => 2 ^ r) = 2 ^ k - 1 := by
  induction k with
  | zero => simp
  | succ k ih =>
    rw [Finset.sum_range_succ, ih]
    have h1 : 1 ≤ 2 ^ k := Nat.one_le_two_pow
    have h2 : 2 ^ (k + 1) = 2 * 2 ^ k := by rw [pow_succ]; ring
    omega

theorem readByte_lt (bit : Nat → Prop) [DecidablePred bit] (q : Nat) :
    readByte bit q (q / 8) < 2 ^ (q % 8) := by
  unfold readByte
  have hle : (Finset.range 8).sum
        (fun r => if 8 * (q / 8) + r < q ∧ bit (8 * (q / 8) + r) then 2 ^ r else 0)
      ≤ (Finset.range 8).sum (fun r => if r < q % 8 then 2 ^ r else 0) := by
    apply Finset.sum_le_sum
    intro r _
    by_cases h : 8 * (q / 8) + r < q ∧ bit (8 * (q / 8) + r)
    · rw [if_pos h, if_pos (by omega)]
    · rw [if_neg h]
      exact Nat.zero_le _
  have heq : (Finset.range 8).sum (fun r => if r < q % 8 then 2 ^ r else 0)
      = (Finset.range (q % 8)).sum (fun r => 2 ^ r) := by
    rw [← Finset.sum_subset (Finset.range_subset.mpr (by omega : q % 8 ≤ 8))]
    · apply Finset.sum_congr rfl
      intro r hr
      rw [if_pos (Finset.mem_range.mp hr)]
    · intro r _ hr
      rw [if_neg (by simpa using hr)]
  have hpow : 1 ≤ 2 ^ (q % 8) := Nat.one_le_two_pow
  rw [sum_range_two_pow] at heq
  omega

/-- Byte `j` of the `ReadCoils` loop result over a zeroed buffer of `B` bytes:
exactly `readByte` of the coil predicate, provided the buffer covers the range. -/
theorem read_fold_getD (coils : Nat → Nat) (address B : Nat) :
    ∀ quantity, quantity ≤ 8 * B → ∀ j,
    ((List.range quantity).foldl
      (fun result i =>
        if coils (address + i) ≠ 0 then
          result.set (i / 8) (result.getD (i / 8) 0 ||| 1 <<< (i % 8))
        else result)
      (List.replicate B 0)).getD j 0
    = readByte (fun i => coils (address + i) ≠ 0) quantity j := by
  intro quantity
  induction quantity with
  | zero =>
    intro _ j
    simp only [List.range_zero, List.foldl_nil, readByte]
    rw [Finset.sum_eq_zero (fun r _ => by rw [if_neg (by omega)])]
    simp [List.getD_eq_getElem?_getD, List.getElem?_replicate]
    split <;> rfl
  | succ q ih =>
    intro hB j
    rw [List.range_succ, List.foldl_append, List.foldl_cons, List.foldl_nil]
    have hlen : ((List.range q).foldl
        (fun result i =>
          if coils (address + i) ≠ 0 then
            result.set (i / 8) (result.getD (i / 8) 0 ||| 1 <<< (i % 8))
          else result)
        (List.replicate B 0)).length = B := by
      rw [foldl_preserve_length]
      · exact List.length_replicate B 0
      · intro l i
        split
        · exact List.length_set l _ _
        · rfl
    by_cases hcoil : coils (address + q) ≠ 0
    · rw [if_pos hcoil, getD_set_zero, hlen]
      by_cases hj : q / 8 = j ∧ j < B
      · obtain ⟨rfl, hjB⟩ := hj
        rw [if_pos ⟨rfl, hjB⟩, ih (by omega) (q / 8)]
        have hb := readByte_lt (fun i => coils (address + i) ≠ 0) q
        have hone : (1 : Nat) <<< (q % 8) = 2 ^ (q % 8) := by
          rw [Nat.shiftLeft_eq, Nat.one_mul]
        rw [hone]
        have hor : readByte (fun i => coils (address + i) ≠ 0) q (q / 8) ||| 2 ^ (q % 8)
            = readByte (fun i => coils (address + i) ≠ 0) q (q / 8) + 2 ^ (q % 8) := by
          have h2 := Nat.mul_add_lt_is_or (i := q % 8) hb 1
          rw [Nat.mul_one] at h2
          rw [Nat.lor_comm, ← h2]
          omega
        rw [hor]
        have hsplit : readByte (fun i => coils (address + i) ≠ 0) (q + 1) (q / 8)
            = readByte (fun i => coils (address + i) ≠ 0) q (q / 8) + 2 ^ (q % 8) := by
          unfold readByte
          have hterm : ∀ r ∈ Finset.range 8,
              (if 8 * (q / 8) + r < q + 1 ∧ coils (address + (8 * (q / 8) + r)) ≠ 0
                then 2 ^ r else 0)
              = (if 8 * (q / 8) + r < q ∧ coils (address + (8 * (q / 8) + r)) ≠ 0
                then 2 ^ r else 0) + (if r = q % 8 then 2 ^ r else 0) := by
            intro r hr
            have hr8 : r < 8 := Finset.mem_range.mp hr
            by_cases hrq : r = q % 8
            · subst hrq
              have hidx : 8 * (q / 8) + q % 8 = q := by omega
              rw [hidx, if_pos ⟨Nat.lt_succ_self q, hcoil⟩, if_neg (by omega),
                if_pos rfl]
              omega
            · have hne : 8 * (q / 8) + r ≠ q := by omega
              have hiff : (8 * (q / 8) + r < q + 1 ∧ coils (address + (8 * (q / 8) + r)) ≠ 0)
                  ↔ (8 * (q / 8) + r < q ∧ coils (address + (8 * (q / 8) + r)) ≠ 0) :=
                ⟨fun h => ⟨by have := h.1; omega, h.2⟩, fun h => ⟨by have := h.1; omega, h.2⟩⟩
              rw [if_congr hiff rfl rfl, if_neg hrq]
              omega
          rw [Finset.sum_congr rfl hterm, Finset.sum_add_distrib,
            Finset.sum_ite_eq' (Finset.range 8) (q % 8) (fun r => 2 ^ r),
            if_pos (Finset.mem_range.mpr (by omega))]
        rw [hsplit]
      · have hne : q / 8 ≠ j := by
          intro hqe
          exact hj ⟨hqe, by omega⟩
        rw [if_neg (by intro hc; exact hne hc.1), ih (by omega) j]
        unfold readByte
        apply Finset.sum_congr rfl
        intro r hr
        have hr8 : r < 8 := Finset.mem_range.mp hr
        have hiff : (8 * j + r < q + 1 ∧ coils (address + (8 * j + r)) ≠ 0)
            ↔ (8 * j + r < q ∧ coils (address + (8 * j + r)) ≠ 0) :=
          ⟨fun h => ⟨by have := h.1; omega, h.2⟩, fun h => ⟨by have := h.1; omega, h.2⟩⟩
        rw [if_congr hiff rfl rfl]
    · rw [if_neg hcoil, ih (by omega) j]
      unfold readByte
      apply Finset.sum_congr rfl
      intro r hr
      have hr8 : r < 8 := Finset.mem_range.mp hr
      by_cases hq : 8 * j + r = q
      · simp only [hq]
        have c1 : ¬(q < q + 1 ∧ coils (address + q) ≠ 0) := fun h => hcoil h.2
        have c2 : ¬(q < q ∧ coils (address + q) ≠ 0) := fun h => absurd h.1 (lt_irrefl q)
        rw [if_neg c1, if_neg c2]
      · have hiff : (8 * j + r < q + 1 ∧ coils (address + (8 * j + r)) ≠ 0)
            ↔ (8 * j + r < q ∧ coils (address + (8 * j + r)) ≠ 0) :=
          ⟨fun h => ⟨by have := h.1; omega, h.2⟩, fun h => ⟨by have := h.1; omega, h.2⟩⟩
        rw [if_congr hiff rfl rfl]

theorem sum_low_bits (x : Nat) (k : Nat) :
    (Finset.range k).sum (fun r => if (x >>> r) &&& 1 ≠ 0 then 2 ^ r else 0)
      = x % 2 ^ k := by
  induction k with
  | zero => simp [Nat.mod_one]
  | succ k ih =>
    rw [Finset.sum_range_succ, ih, Nat.mod_pow_succ]
    have hbit : (x >>> k) &&& 1 = (x / 2 ^ k) % 2 := by
      rw [Nat.shiftRight_eq_div_pow, Nat.and_one_is_mod]
    by_cases h : (x >>> k) &&& 1 ≠ 0
    · rw [if_pos h]
      rw [hbit] at h
      have hone : x / 2 ^ k % 2 = 1 := by omega
      rw [hone, Nat.mul_one]
    · rw [if_neg h]
      rw [hbit] at h
      have hzero : x / 2 ^ k % 2 = 0 := by omega
      rw [hzero, Nat.mul_zero]

/-- The eight-term bit sum of `readByte` over payload byte `x`, with bits
`≥ t` excluded, is `x` reduced mod `2 ^ min 8 t` (equivalently `x` masked to
its low `min 8 t` bits). -/
theorem sum_bits_eq_mod (x t : Nat) :
    (Finset.range 8).sum (fun r => if r < t ∧ (x >>> r) &&& 1 ≠ 0 then 2 ^ r else 0)
      = x % 2 ^ min 8 t := by
  rw [← sum_low_bits x (min 8 t)]
  rw [← Finset.sum_subset (Finset.range_subset.mpr (by omega : min 8 t ≤ 8))]
  · apply Finset.sum_congr rfl
    intro r hr
    have hrt : r < t := by
      have := Finset.mem_range.mp hr
      omega
    by_cases hb : (x >>> r) &&& 1 ≠ 0
    · rw [if_pos ⟨hrt, hb⟩, if_pos hb]
    · rw [if_neg (fun h => hb h.2), if_neg hb]
  · intro r hr hnotk
    have hr8 : r < 8 := Finset.mem_range.mp hr
    have hrk : ¬r < min 8 t := by simpa using hnotk
    rw [if_neg (fun h => hrk (by have := h.1; omega))]

/-- Claim C5: For `1 ≤ n`, `a + n ≤ 65536`, and a packed buffer of exactly
`⌈n/8⌉` bytes, `WriteMultipleCoils(a, n, packed)` succeeds, and a subsequent
`ReadCoils(a, n)` returns the packed buffer with, in each byte `j`, every bit
at overall position `≥ n` cleared (`packed[j] % 2 ^ min 8 (n − 8j)`, i.e.
`packed[j]` masked to its valid low bits). -/
theorem write_then_read_coils (m : DataModel) (a n : Nat) (data : List Nat)
    (h1 : 1 ≤ n) (h2 : a + n ≤ 65536) (h3 : data.length = (n + 7) / 8) :
    ∃ m', WriteMultipleCoils m a n data = (false, m') ∧
      ReadCoils m' a n = some ((List.range ((n + 7) / 8)).map
        (fun j => data.getD j 0 % 2 ^ min 8 (n - 8 * j))) := by
  have hval : validateRange a n = true := by
    unfold validateRange MaxAddress
    rw [if_neg (by omega), if_neg (by omega)]
  set coilsW : Nat → Nat := (List.range n).foldl
    (fun c i => Function.update c (a + i) ((data.getD (i / 8) 0 >>> (i % 8)) &&& 1))
    m.Coils with hcoilsW
  refine ⟨{ m with Coils := coilsW }, ?_, ?_⟩
  · unfold WriteMultipleCoils
    rw [if_neg (by simp [hval]), if_neg (by omega)]
  · unfold ReadCoils
    rw [if_neg (by simp [hval])]
    congr 1
    have hB : n ≤ 8 * ((n + 7) / 8) := by omega
    apply List.ext_getElem
    · rw [foldl_preserve_length]
      · simp
      · intro l i
        split
        · exact List.length_set l _ _
        · rfl
    · intro j hj1 hj2
      have hjB : j < (n + 7) / 8 := by
        simpa using hj2
      rw [List.getElem_map, List.getElem_range]
      have hgetD : ∀ (l : List Nat) (hjl : j < l.length), l[j] = l.getD j 0 := by
        intro l hjl
        rw [List.getD_eq_getElem?_getD, List.getElem?_eq_getElem hjl]
        rfl
      rw [hgetD _ hj1, read_fold_getD _ a ((n + 7) / 8) n hB j]
      unfold readByte
      rw [← sum_bits_eq_mod (data.getD j 0) (n - 8 * j)]
      apply Finset.sum_congr rfl
      intro r hr
      have hr8 : r < 8 := Finset.mem_range.mp hr
      have hcoil : coilsW (a + (8 * j + r)) = (data.getD j 0 >>> r) &&& 1 ∨
          ¬(8 * j + r < n) := by
        by_cases hin : 8 * j + r < n
        · left
          rw [hcoilsW, coils_write_fold_apply, if_pos ⟨by omega, by omega⟩]
          have e1 : a + (8 * j + r) - a = 8 * j + r := by omega
          rw [e1]
          have e2 : (8 * j + r) / 8 = j := by omega
          have e3 : (8 * j + r) % 8 = r := by omega
          rw [e2, e3]
        · right
          exact hin
      rcases hcoil with hcoil | hin
      · simp only [hcoil]
        by_cases hb : (data.getD j 0 >>> r) &&& 1 ≠ 0
        · by_cases hin : 8 * j + r < n
          · rw [if_pos ⟨hin, hb⟩, if_pos ⟨by omega, hb⟩]
          · rw [if_neg (fun h => hin h.1), if_neg (fun h => absurd h.1 (by omega))]
        · rw [if_neg (fun h => hb h.2), if_neg (fun h => hb h.2)]
      · rw [if_neg (fun h => hin h.1), if_neg (fun h => absurd h.1 (by omega))]

/-- Witness for C5: write three coils from the packed byte `0b11111101`, read
them back: the result is the byte masked to its low three bits, `0b101`. -/
theorem write_then_read_coils_witness :
    ∃ m', WriteMultipleCoils zeroModel 0 3 [0xFD] = (false, m') ∧
      ReadCoils m' 0 3 = some [0x05] := by
  obtain ⟨m', hw, hr⟩ := write_then_read_coils zeroModel 0 3 [0xFD]
    (by decide) (by decide) (by decide)
  refine ⟨m', hw, ?_⟩
  rw [hr]
  rfl

/-! ### Local slave (src/internal/local-slave/slave.go).  The `modbus` package
constants it references are declarations whose defining file is not under src;
their values are modelled from the spec (§4.4 function-code table and
exception-code list). -/

/-- Modelled from the spec: `modbus.FuncCode…` constants (§4.4 table). -/
def FuncCodeReadCoils : Nat := 0x01

def FuncCodeReadDiscreteInputs : Nat := 0x02

def FuncCodeReadHoldingRegisters : Nat := 0x03

def FuncCodeReadInputRegisters : Nat := 0x04

def FuncCodeWriteSingleCoil : Nat := 0x05

def FuncCodeWriteSingleRegister : Nat := 0x06

def FuncCodeWriteMultipleCoils : Nat := 0x0F

def FuncCodeWriteMultipleRegisters : Nat := 0x10

/-- Modelled from the spec: `modbus.ExceptionCode…` constants (§4.4). -/
def ExceptionCodeIllegalFunction : Nat := 0x01

def ExceptionCodeIllegalDataAddress : Nat := 0x02

def ExceptionCodeIllegalDataValue : Nat := 0x03

/-- `LocalSlave.exception`: function-code with the high bit set, one code byte. -/
def exception (funcCode code : Nat) : ProtocolDataUnit :=
  { functionCode := funcCode ||| 0x80, data := [code] }

/-- Result of `LocalSlave.Process` and its handlers: the response PDU, whether a
non-nil Go error was returned, and the (possibly mutated) data model. -/
structure ProcessResult where
  resp : ProtocolDataUnit
  goErr : Bool
  model : DataModel

def handleReadCoils (m : DataModel) (req : ProtocolDataUnit) : ProcessResult :=
  if req.data.length ≠ 4 then
    ⟨exception req.functionCode ExceptionCodeIllegalDataValue, false, m⟩
  else
    let address := req.data.getD 0 0 <<< 8 ||| req.data.getD 1 0
    let quantity := req.data.getD 2 0 <<< 8 ||| req.data.getD 3 0
    if quantity < 1 ∨ quantity > 2000 then
      ⟨exception req.functionCode ExceptionCodeIllegalDataValue, false, m⟩
    else
      match ReadCoils m address quantity with
      | none => ⟨exception req.functionCode ExceptionCodeIllegalDataAddress, false, m⟩
      | some data => ⟨⟨req.functionCode, data.length % 256 :: data⟩, false, m⟩

def handleReadDiscreteInputs (m : DataModel) (req : ProtocolDataUnit) : ProcessResult :=
  if req.data.length ≠ 4 then
    ⟨exception req.functionCode ExceptionCodeIllegalDataValue, false, m⟩
  else
    let address := req.data.getD 0 0 <<< 8 ||| req.data.getD 1 0
    let quantity := req.data.getD 2 0 <<< 8 ||| req.data.getD 3 0
    if quantity < 1 ∨ quantity > 2000 then
      ⟨exception req.functionCode ExceptionCodeIllegalDataValue, false, m⟩
    else
      match ReadDiscreteInputs m address quantity with
      | none => ⟨exception req.functionCode ExceptionCodeIllegalDataAddress, false, m⟩
      | some data => ⟨⟨req.functionCode, data.length % 256 :: data⟩, false, m⟩

def handleReadHoldingRegisters (m : DataModel) (req : ProtocolDataUnit) : ProcessResult :=
  if req.data.length ≠ 4 then
    ⟨exception req.functionCode ExceptionCodeIllegalDataValue, false, m⟩
  else
    let address := req.data.getD 0 0 <<< 8 ||| req.data.getD 1 0
    let quantity := req.data.getD 2 0 <<< 8 ||| req.data.getD 3 0
    if quantity < 1 ∨ quantity > 125 then
      ⟨exception req.functionCode ExceptionCodeIllegalDataValue, false, m⟩
    else
      match ReadHoldingRegisters m address quantity with
      | none => ⟨exception req.functionCode ExceptionCodeIllegalDataAddress, false, m⟩
      | some data => ⟨⟨req.functionCode, data.length % 256 :: data⟩, false, m⟩

def handleReadInputRegisters (m : DataModel) (req : ProtocolDataUnit) : ProcessResult :=
  if req.data.length ≠ 4 then
    ⟨exception req.functionCode ExceptionCodeIllegalDataValue, false, m⟩
  else
    let address := req.data.getD 0 0 <<< 8 ||| req.data.getD 1 0
    let quantity := req.data.getD 2 0 <<< 8 ||| req.data.getD 3 0
    if quantity < 1 ∨ quantity > 125 then
      ⟨exception req.functionCode ExceptionCodeIllegalDataValue, false, m⟩
    else
      match ReadInputRegisters m address quantity with
      | none => ⟨exception req.functionCode ExceptionCodeIllegalDataAddress, false, m⟩
      | some data => ⟨⟨req.functionCode, data.length % 256 :: data⟩, false, m⟩

def handleWriteSingleCoil (m : DataModel) (req : ProtocolDataUnit) : ProcessResult :=
  if req.data.length ≠ 4 then
    ⟨exception req.functionCode ExceptionCodeIllegalDataValue, false, m⟩
  else
    let address := req.data.getD 0 0 <<< 8 ||| req.data.getD 1 0
    let value := req.data.getD 2 0 <<< 8 ||| req.data.getD 3 0
    match WriteSingleCoil m address value with
    | (true, m2) => ⟨exception req.functionCode ExceptionCodeIllegalDataAddress, false, m2⟩
    | (false, m2) => ⟨req, false, m2⟩

def handleWriteSingleRegister (m : DataModel) (req : ProtocolDataUnit) : ProcessResult :=
  if req.data.length ≠ 4 then
    ⟨exception req.functionCode ExceptionCodeIllegalDataValue, false, m⟩
  else
    let address := req.data.getD 0 0 <<< 8 ||| req.data.getD 1 0
    let value := req.data.getD 2 0 <<< 8 ||| req.data.getD 3 0
    match WriteSingleRegister m address value with
    | (true, m2) => ⟨exception req.functionCode ExceptionCodeIllegalDataAddress, false, m2⟩
    | (false, m2) => ⟨req, false, m2⟩

def handleWriteMultipleCoils (m : DataModel) (req : ProtocolDataUnit) : ProcessResult :=
  if req.data.length < 6 then
    ⟨exception req.functionCode ExceptionCodeIllegalDataValue, false, m⟩
  else
    let address := req.data.getD 0 0 <<< 8 ||| req.data.getD 1 0
    let quantity := req.data.getD 2 0 <<< 8 ||| req.data.getD 3 0
    let byteCount := req.data.getD 4 0
    if quantity < 1 ∨ quantity > 1968 then
      ⟨exception req.functionCode ExceptionCodeIllegalDataValue, false, m⟩
    else if (req.data.length - 5) % 256 ≠ byteCount then
      ⟨exception req.functionCode ExceptionCodeIllegalDataValue, false, m⟩
    else
      match WriteMultipleCoils m address quantity (req.data.drop 5) with
      | (true, m2) => ⟨exception req.functionCode ExceptionCodeIllegalDataAddress, false, m2⟩
      | (false, m2) =>
        ⟨⟨req.functionCode, [(address >>> 8) % 256, address % 256,
          (quantity >>> 8) % 256, quantity % 256]⟩, false, m2⟩

def handleWriteMultipleRegisters (m : DataModel) (req : ProtocolDataUnit) : ProcessResult :=
  if req.data.length < 6 then
    ⟨exception req.functionCode ExceptionCodeIllegalDataValue, false, m⟩
  else
    let address := req.data.getD 0 0 <<< 8 ||| req.data.getD 1 0
    let quantity := req.data.getD 2 0 <<< 8 ||| req.data.getD 3 0
    let byteCount := req.data.getD 4 0
    if quantity < 1 ∨ quantity > 123 then
      ⟨exception req.functionCode ExceptionCodeIllegalDataValue, false, m⟩
    else if (req.data.length - 5) % 256 ≠ byteCount then
      ⟨exception req.functionCode ExceptionCodeIllegalDataValue, false, m⟩
    else
      match WriteMultipleRegisters m address quantity (req.data.drop 5) with
      | (true, m2) => ⟨exception req.functionCode ExceptionCodeIllegalDataAddress, false, m2⟩
      | (false, m2) =>
        ⟨⟨req.functionCode, [(address >>> 8) % 256, address % 256,
          (quantity >>> 8) % 256, quantity % 256]⟩, false, m2⟩

/-- `LocalSlave.Process`: dispatch on the function code; unknown codes yield the
illegal-function exception with a nil Go error. -/
def Process (m : DataModel) (req : ProtocolDataUnit) : ProcessResult :=
  if req.functionCode = FuncCodeReadCoils then handleReadCoils m req
  else if req.functionCode = FuncCodeReadDiscreteInputs then handleReadDiscreteInputs m req
  else if req.functionCode = FuncCodeReadHoldingRegisters then handleReadHoldingRegisters m req
  else if req.functionCode = FuncCodeReadInputRegisters then handleReadInputRegisters m req
  else if req.functionCode = FuncCodeWriteSingleCoil then handleWriteSingleCoil m req
  else if req.functionCode = FuncCodeWriteSingleRegister then handleWriteSingleRegister m req
  else if req.functionCode = FuncCodeWriteMultipleCoils then handleWriteMultipleCoils m req
  else if req.functionCode = FuncCodeWriteMultipleRegisters then handleWriteMultipleRegisters m req
  else ⟨exception req.functionCode ExceptionCodeIllegalFunction, false, m⟩

/-- The well-formedness every `Process` result obeys: nil Go error, and a
response that either keeps the request's function code (success or echo) or is
an exception PDU (high bit set, exactly one data byte). -/
def RespShape (req : ProtocolDataUnit) (r : ProcessResult) : Prop :=
  r.goErr = false ∧ (r.resp.functionCode = req.functionCode ∨
    (r.resp.functionCode = req.functionCode ||| 0x80 ∧ r.resp.data.length = 1))

theorem respShape_handleReadCoils (m : DataModel) (req : ProtocolDataUnit) :
    RespShape req (handleReadCoils m req) := by
  unfold handleReadCoils
  dsimp only
  split_ifs <;> try exact ⟨rfl, Or.inr ⟨rfl, rfl⟩⟩
  split
  · exact ⟨rfl, Or.inr ⟨rfl, rfl⟩⟩
  · exact ⟨rfl, Or.inl rfl⟩

theorem respShape_handleReadDiscreteInputs (m : DataModel) (req : ProtocolDataUnit) :
    RespShape req (handleReadDiscreteInputs m req) := by
  unfold handleReadDiscreteInputs
  dsimp only
  split_ifs <;> try exact ⟨rfl, Or.inr ⟨rfl, rfl⟩⟩
  split
  · exact ⟨rfl, Or.inr ⟨rfl, rfl⟩⟩
  · exact ⟨rfl, Or.inl rfl⟩

theorem respShape_handleReadHoldingRegisters (m : DataModel) (req : ProtocolDataUnit) :
    RespShape req (handleReadHoldingRegisters m req) := by
  unfold handleReadHoldingRegisters
  dsimp only
  split_ifs <;> try exact ⟨rfl, Or.inr ⟨rfl, rfl⟩⟩
  split
  · exact ⟨rfl, Or.inr ⟨rfl, rfl⟩⟩
  · exact ⟨rfl, Or.inl rfl⟩

theorem respShape_handleReadInputRegisters (m : DataModel) (req : ProtocolDataUnit) :
    RespShape req (handleReadInputRegisters m req) := by
  unfold handleReadInputRegisters
  dsimp only
  split_ifs <;> try exact ⟨rfl, Or.inr ⟨rfl, rfl⟩⟩
  split
  · exact ⟨rfl, Or.inr ⟨rfl, rfl⟩⟩
  · exact ⟨rfl, Or.inl rfl⟩

theorem respShape_handleWriteSingleCoil (m : DataModel) (req : ProtocolDataUnit) :
    RespShape req (handleWriteSingleCoil m req) := by
  unfold handleWriteSingleCoil
  dsimp only
  split_ifs <;> try exact ⟨rfl, Or.inr ⟨rfl, rfl⟩⟩
  split
  · exact ⟨rfl, Or.inr ⟨rfl, rfl⟩⟩
  · exact ⟨rfl, Or.inl rfl⟩

theorem respShape_handleWriteSingleRegister (m : DataModel) (req : ProtocolDataUnit) :
    RespShape req (handleWriteSingleRegister m req) := by
  unfold handleWriteSingleRegister
  dsimp only
  split_ifs <;> try exact ⟨rfl, Or.inr ⟨rfl, rfl⟩⟩
  split
  · exact ⟨rfl, Or.inr ⟨rfl, rfl⟩⟩
  · exact ⟨rfl, Or.inl rfl⟩

theorem respShape_handleWriteMultipleCoils (m : DataModel) (req : ProtocolDataUnit) :
    RespShape req (handleWriteMultipleCoils m req) := by
  unfold handleWriteMultipleCoils
  dsimp only
  split_ifs <;> try exact ⟨rfl, Or.inr ⟨rfl, rfl⟩⟩
  split
  · exact ⟨rfl, Or.inr ⟨rfl, rfl⟩⟩
  · exact ⟨rfl, Or.inl rfl⟩

theorem respShape_handleWriteMultipleRegisters (m : DataModel) (req : ProtocolDataUnit) :
    RespShape req (handleWriteMultipleRegisters m req) := by
  unfold handleWriteMultipleRegisters
  dsimp only
  split_ifs <;> try exact ⟨rfl, Or.inr ⟨rfl, rfl⟩⟩
  split
  · exact ⟨rfl, Or.inr ⟨rfl, rfl⟩⟩
  · exact ⟨rfl, Or.inl rfl⟩

/-- Claim C9: `LocalSlave.Process` never returns a non-nil Go error: every result
carries `err = nil`; the response either keeps the request's function code or
is an exception PDU (function-code with the high bit set and exactly one
exception-code byte); and an unsupported function code yields precisely the
illegal-function (0x01) exception. -/
theorem process_never_errors (m : DataModel) (req : ProtocolDataUnit) :
    (Process m req).goErr = false ∧
    ((Process m req).resp.functionCode = req.functionCode ∨
      ((Process m req).resp.functionCode = req.functionCode ||| 0x80 ∧
        (Process m req).resp.data.length = 1)) ∧
    (req.functionCode ∉ ([0x01, 0x02, 0x03, 0x04, 0x05, 0x06, 0x0F, 0x10] : List Nat) →
      Process m req = ⟨exception req.functionCode ExceptionCodeIllegalFunction, false, m⟩) := by
  have hshape : RespShape req (Process m req) := by
    unfold Process
    split_ifs
    · exact respShape_handleReadCoils m req
    · exact respShape_handleReadDiscreteInputs m req
    · exact respShape_handleReadHoldingRegisters m req
    · exact respShape_handleReadInputRegisters m req
    · exact respShape_handleWriteSingleCoil m req
    · exact respShape_handleWriteSingleRegister m req
    · exact respShape_handleWriteMultipleCoils m req
    · exact respShape_handleWriteMultipleRegisters m req
    · exact ⟨rfl, Or.inr ⟨rfl, rfl⟩⟩
  refine ⟨hshape.1, hshape.2, ?_⟩
  intro hfc
  simp only [List.mem_cons, List.not_mem_nil, or_false, not_or] at hfc
  obtain ⟨h1, h2, h3, h4, h5, h6, h7, h8⟩ := hfc
  unfold Process FuncCodeReadCoils FuncCodeReadDiscreteInputs
    FuncCodeReadHoldingRegisters FuncCodeReadInputRegisters FuncCodeWriteSingleCoil
    FuncCodeWriteSingleRegister FuncCodeWriteMultipleCoils FuncCodeWriteMultipleRegisters
  rw [if_neg h1, if_neg h2, if_neg h3, if_neg h4, if_neg h5, if_neg h6,
    if_neg h7, if_neg h8]

/-- Witness for C9 at an unsupported function code (0x2B) on a zeroed model. -/
theorem process_never_errors_witness :
    (Process zeroModel ⟨0x2B, []⟩).goErr = false ∧
    Process zeroModel ⟨0x2B, []⟩
      = ⟨exception 0x2B ExceptionCodeIllegalFunction, false, zeroModel⟩ := by
  have h := process_never_errors zeroModel ⟨0x2B, []⟩
  exact ⟨h.1, h.2.2 (by decide)⟩

/-- Claim C7: A `write-single-coil` with a raw value other than 0xFF00 and 0x0000
returns no error and leaves the whole data model (coils included) unchanged,
and the local slave's response to such a request is the echoed request PDU
over the unchanged model. -/
theorem write_single_coil_ignores_other_values (m : DataModel) (addr v : Nat)
    (haddr : addr ≤ 65535) (hv16 : v < 65536) (hv1 : v ≠ 0xFF00) (hv2 : v ≠ 0) :
    WriteSingleCoil m addr v = (false, m) ∧
    Process m ⟨FuncCodeWriteSingleCoil,
        [(addr >>> 8) % 256, addr % 256, (v >>> 8) % 256, v % 256]⟩
      = ⟨⟨FuncCodeWriteSingleCoil,
          [(addr >>> 8) % 256, addr % 256, (v >>> 8) % 256, v % 256]⟩, false, m⟩ := by
  have hwrite : WriteSingleCoil m addr v = (false, m) := by
    unfold WriteSingleCoil MaxAddress
    rw [if_neg (by omega), if_neg hv1, if_neg hv2]
  refine ⟨hwrite, ?_⟩
  have hdispatch : Process m ⟨FuncCodeWriteSingleCoil,
      [(addr >>> 8) % 256, addr % 256, (v >>> 8) % 256, v % 256]⟩
      = handleWriteSingleCoil m ⟨FuncCodeWriteSingleCoil,
      [(addr >>> 8) % 256, addr % 256, (v >>> 8) % 256, v % 256]⟩ := rfl
  rw [hdispatch]
  unfold handleWriteSingleCoil
  dsimp only
  rw [if_neg (by simp)]
  simp only [List.getD_cons_zero, List.getD_cons_succ]
  rw [reassemble_u16 addr (by omega), reassemble_u16 v hv16, hwrite]

/-- Witness for C7: value 0x1234 at address 10 is ignored and echoed. -/
theorem write_single_coil_ignores_other_values_witness :
    WriteSingleCoil zeroModel 10 0x1234 = (false, zeroModel) ∧
    Process zeroModel ⟨FuncCodeWriteSingleCoil, [0x00, 0x0A, 0x12, 0x34]⟩
      = ⟨⟨FuncCodeWriteSingleCoil, [0x00, 0x0A, 0x12, 0x34]⟩, false, zeroModel⟩ :=
  write_single_coil_ignores_other_values zeroModel 10 0x1234
    (by decide) (by decide) (by decide) (by decide)

/-! ### RTU master serial timing (src/transport/rtu/client.go:
`calculateResponseLength`, `rtuSerialTransporter.calculateDelay`, and the
pre-read wait in `rtuSerialTransporter.Send`). -/

/-- `rtu.calculateResponseLength`: predicted response-ADU length from the
request's function code (`adu[1]`) and, for the read codes, its big-endian
quantity field (`adu[4:6]`).  The Go switch's 0x18/read-device-identification
arm adds nothing to the base length 4 and therefore coincides with the default
arm here.  Go indexes the slice directly (callers pass complete request ADUs);
out-of-range reads are modelled as 0. -/
def calculateResponseLength (adu : List Nat) : Nat :=
  if adu.getD 1 0 = 0x02 ∨ adu.getD 1 0 = 0x01 then
    let count := (adu.getD 4 0) <<< 8 ||| adu.getD 5 0
    4 + (1 + count / 8) + (if count % 8 ≠ 0 then 1 else 0)
  else if adu.getD 1 0 = 0x04 ∨ adu.getD 1 0 = 0x03 ∨ adu.getD 1 0 = 0x17 then
    let count := (adu.getD 4 0) <<< 8 ||| adu.getD 5 0
    4 + (1 + count * 2)
  else if adu.getD 1 0 = 0x05 ∨ adu.getD 1 0 = 0x0F ∨ adu.getD 1 0 = 0x06 ∨
      adu.getD 1 0 = 0x10 then
    4 + 4
  else if adu.getD 1 0 = 0x16 then
    4 + 6
  else
    4

/-- `rtuSerialTransporter.calculateDelay`, in microseconds:
`characterDelay * chars + frameDelay` with `(15000000/baud, 35000000/baud)`
for `0 < baud ≤ 19200` (Go integer division) and the fixed pair `(750, 1750)`
for `baud > 19200` (or a non-positive configured baud rate). -/
def calculateDelay (baudRate : Int) (chars : Nat) : Int :=
  if baudRate ≤ 0 ∨ baudRate > 19200 then 750 * (chars : Int) + 1750
  else (15000000 / baudRate) * (chars : Int) + 35000000 / baudRate

/-- The wait `rtuSerialTransporter.Send` performs between writing the request
and reading the response: `calculateDelay` applied to the request length plus
the predicted response length. -/
def sendPreReadDelay (baudRate : Int) (aduRequest : List Nat) : Int :=
  calculateDelay baudRate (aduRequest.length + calculateResponseLength aduRequest)

/-- Claim C8: Before reading a response the RTU master waits exactly
`characterDelay * totalBytes + frameDelay` µs, where `totalBytes` is the
request length plus the predicted response length; for `1 ≤ baud ≤ 19200` the
pair is `(15000000/baud, 35000000/baud)` µs (integer division), and for
`baud > 19200` the fixed pair `(750, 1750)` µs. -/
theorem rtu_master_pre_read_delay (baudRate : Int) (req : List Nat) :
    (1 ≤ baudRate → baudRate ≤ 19200 →
      sendPreReadDelay baudRate req
        = (15000000 / baudRate) * ((req.length + calculateResponseLength req : Nat) : Int)
          + 35000000 / baudRate) ∧
    (19200 < baudRate →
      sendPreReadDelay baudRate req
        = 750 * ((req.length + calculateResponseLength req : Nat) : Int) + 1750) := by
  unfold sendPreReadDelay calculateDelay
  constructor
  · intro hb1 hb2
    rw [if_neg (by omega)]
  · intro hb
    rw [if_pos (Or.inr hb)]

/-- Witness for C8 at 9600 baud with the 8-byte read-holding-registers request
`01 03 00 00 00 01 84 0A` (predicted response 7 bytes, 15 bytes total):
1562·15 + 3645 = 27075 µs. -/
theorem rtu_master_pre_read_delay_witness :
    sendPreReadDelay 9600 [1, 3, 0, 0, 0, 1, 0x84, 0x0A]
      = (15000000 / 9600) * ((([1, 3, 0, 0, 0, 1, 0x84, 0x0A] : List Nat).length
          + calculateResponseLength [1, 3, 0, 0, 0, 1, 0x84, 0x0A] : Nat) : Int)
        + 35000000 / 9600 ∧
    sendPreReadDelay 9600 [1, 3, 0, 0, 0, 1, 0x84, 0x0A] = 27075 :=
  ⟨(rtu_master_pre_read_delay 9600 [1, 3, 0, 0, 0, 1, 0x84, 0x0A]).1
      (by norm_num) (by norm_num),
    by decide⟩

end ModbusGW
